import Mathlib

/-!
Shallow embedding of the warehouse / order-fulfillment core of the service
(`src/warehouse/warehouse.route.ts`): the helper functions
`placeBooksOnShelf`, `getBookInfo`, `placeOrder` and `fulfilOrder`, together
with the store they act on.

The store interface (`WarehouseData`, from `warehouse_data.ts`, whose
implementation file is not part of the sources here) is modelled from the
spec's contract (§4.1 Shelf Inventory Store, §4.3/§4.4 Order Store):
`getCopiesOnShelf` returns the count, 0 when no record exists;
`placeBookOnShelf` sets an absolute count and rejects a negative `newCount`
with a `ValidationError`; orders live in a keyed store with point lookup,
point write and deletion; fresh order-identifier generation is modelled by
passing the fresh identifier as an explicit argument.

JavaScript `Record<string, number>` values (an order's book → quantity map,
the `removedCount` tally built during fulfillment) are modelled as
association lists with first-occurrence lookup and in-place update, matching
a JS object's distinct keys and insertion-order iteration. Quantities and
stock counts are integers (`Int`), as the code performs no rounding.

Failure is modelled with `Except`: route-level operations return
`Except (WErr × WarehouseData) WarehouseData`, where a thrown error carries
the store state at the moment of the throw, so that atomicity-on-failure is
a real theorem about the code's control flow and not a modelling artifact.
-/

/-- Book identifier: opaque string key. -/
abbrev BookID := String

/-- Shelf identifier: opaque string key. -/
abbrev ShelfId := String

/-- Order identifier: opaque string key. -/
abbrev OrderId := String

/-- One fulfillment line, as in the route's `FulfilBookItem` interface:
a (book, shelf, numberOfBooks) triple. -/
structure FulfilBookItem where
  book : BookID
  shelf : ShelfId
  numberOfBooks : Int
deriving DecidableEq, Repr

/-- A JS `Record<BookID, number>`: association list with distinct keys,
first-occurrence lookup. Used for an order's book→quantity map and for the
`removedCount` tally inside `fulfilOrder`. -/
abbrev OrderRec := List (BookID × Int)

/-- Lookup `m[k]` in a record: `some v` for the first entry with key `k`,
`none` when the key is absent (JS `undefined`). -/
def getR : OrderRec → BookID → Option Int
  | [], _ => none
  | (k, v) :: rest, key => if k = key then some v else getR rest key

/-- Assignment `m[k] = v` on a record: overwrites the first entry with key
`k`, or appends a new entry when the key is absent (JS insertion order). -/
def setR : OrderRec → BookID → Int → OrderRec
  | [], k, v => [(k, v)]
  | (k', v') :: rest, k, v =>
      if k' = k then (k, v) :: rest else (k', v') :: setR rest k v

/-- Error kinds of the warehouse core, named as in the spec's error
taxonomy (§7); the code raises them as `Error` values with fixed messages. -/
inductive WErr
  | ValidationError
  | OrderNotFound
  | UnknownBookInOrder
  | QuantityMismatch
  | InsufficientStock
deriving DecidableEq, Repr

/-- Modelled from the spec: state behind the `WarehouseData` store interface
(`warehouse_data.ts` is not among the sources; §4.1 and §3 describe it).
`stock` is the per-(book, shelf) copy count, total with default 0 for
absent records; `orders` is the keyed Order Store. -/
structure WarehouseData where
  stock : BookID → ShelfId → Int
  orders : OrderId → Option OrderRec

/-- Modelled from the spec: `getCopiesOnShelf(book, shelf) -> count`,
"returns 0 if no record exists" (§4.1), so absence is encoded as count 0. -/
def WarehouseData.getCopiesOnShelf (d : WarehouseData) (book : BookID) (shelf : ShelfId) : Int :=
  d.stock book shelf

/-- Modelled from the spec: `placeBookOnShelf(book, shelf, newCount)` sets
the absolute count and "fails with `ValidationError` if `newCount < 0` is
passed by a misbehaving caller" (§4.1). -/
def WarehouseData.placeBookOnShelf (d : WarehouseData) (book : BookID) (shelf : ShelfId)
    (newCount : Int) : Except WErr WarehouseData :=
  if newCount < 0 then .error .ValidationError
  else .ok { d with
    stock := fun b s =>
      if b = book then (if s = shelf then newCount else d.stock b s) else d.stock b s }

/-- Modelled from the spec: Order Store point lookup; the code receives
`false` for a missing order, modelled as `none`. -/
def WarehouseData.getOrder (d : WarehouseData) (orderId : OrderId) : Option OrderRec :=
  d.orders orderId

/-- Modelled from the spec: Order Store deletion by key. -/
def WarehouseData.removeOrder (d : WarehouseData) (orderId : OrderId) : WarehouseData :=
  { d with orders := fun i => if i = orderId then none else d.orders i }

/-- Modelled from the spec: Order Store write under a freshly generated
identifier (§4.3); the fresh identifier is passed explicitly. -/
def WarehouseData.storeOrder (d : WarehouseData) (newId : OrderId) (order : OrderRec) :
    WarehouseData :=
  { d with orders := fun i => if i = newId then some order else d.orders i }

/-- Function `placeBooksOnShelf` from `warehouse.route.ts`: rejects a negative
quantity, otherwise reads the current count and writes current + delta.
(The code's `?? 0` on the read is the identity under the store contract,
which already returns 0 for a missing record.) -/
def placeBooksOnShelf (d : WarehouseData) (bookId : BookID) (numberOfBooks : Int)
    (shelf : ShelfId) : Except (WErr × WarehouseData) WarehouseData :=
  if numberOfBooks < 0 then .error (.ValidationError, d)
  else
    let current := d.getCopiesOnShelf bookId shelf
    match d.placeBookOnShelf bookId shelf (current + numberOfBooks) with
    | .error e => .error (e, d)
    | .ok d' => .ok d'

/-- The tally loop of `placeOrder`: `order[book] = 1 + (order[book] ?? 0)`
for each book in sequence, starting from the given accumulator record. -/
def tallyOrder : List BookID → OrderRec → OrderRec
  | [], acc => acc
  | b :: rest, acc => tallyOrder rest (setR acc b (1 + (getR acc b).getD 0))

/-- Function `placeOrder` from `warehouse.route.ts`: tallies the book list into a
book→quantity record, stores it under the fresh identifier, and returns
that identifier. -/
def placeOrder (d : WarehouseData) (newId : OrderId) (books : List BookID) :
    OrderId × WarehouseData :=
  (newId, d.storeOrder newId (tallyOrder books []))

/-- First validation loop of `fulfilOrder`: for each line in order, throw
`UnknownBookInOrder` unless the line's book is a key of the order (JS
`book in order`), then add its quantity into the `removedCount` tally. -/
def buildRemovedCount (order : OrderRec) :
    List FulfilBookItem → OrderRec → Except WErr OrderRec
  | [], acc => .ok acc
  | l :: rest, acc =>
      if (getR order l.book).isSome then
        buildRemovedCount order rest
          (setR acc l.book (l.numberOfBooks + (getR acc l.book).getD 0))
      else .error .UnknownBookInOrder

/-- Second validation loop of `fulfilOrder`: over `Object.keys(order)`,
`removedCount[book] !== order[book]` triggers `QuantityMismatch`; here the
loop is folded into a single boolean. -/
def checkQuantities (order removedCount : OrderRec) : Bool :=
  order.all fun kv => decide (getR removedCount kv.1 = getR order kv.1)

/-- Third validation phase of `fulfilOrder` (the `Promise.all` over lines):
each line reads the shelf's current count from the pre-commit state, throws
`InsufficientStock` when count − quantity is negative, and otherwise yields
the line with its `numberOfBooks` replaced by the new absolute count. -/
def processLines (d : WarehouseData) :
    List FulfilBookItem → Except WErr (List FulfilBookItem)
  | [] => .ok []
  | l :: rest =>
      let currentCopiesOnShelf := d.getCopiesOnShelf l.book l.shelf
      let newCopiesOnShelf := currentCopiesOnShelf - l.numberOfBooks
      if newCopiesOnShelf < 0 then .error .InsufficientStock
      else
        match processLines d rest with
        | .error e => .error e
        | .ok rest' => .ok (⟨l.book, l.shelf, newCopiesOnShelf⟩ :: rest')

/-- Commit-phase writes of `fulfilOrder`: each processed line's absolute
new count is written via the store's `placeBookOnShelf`, in line order. -/
def applyWrites : WarehouseData → List FulfilBookItem → Except (WErr × WarehouseData) WarehouseData
  | d, [] => .ok d
  | d, l :: rest =>
      match d.placeBookOnShelf l.book l.shelf l.numberOfBooks with
      | .error e => .error (e, d)
      | .ok d' => applyWrites d' rest

/-- Function `fulfilOrder` from `warehouse.route.ts`: look the order up
(`OrderNotFound` when absent), run the membership-and-tally loop, the
quantity-match loop and the per-line stock check, then commit by removing
the order and writing each processed line's new absolute count. -/
def fulfilOrder (d : WarehouseData) (orderId : OrderId)
    (booksFulfilled : List FulfilBookItem) : Except (WErr × WarehouseData) WarehouseData :=
  match d.getOrder orderId with
  | none => .error (.OrderNotFound, d)
  | some order =>
      match buildRemovedCount order booksFulfilled [] with
      | .error e => .error (e, d)
      | .ok removedCount =>
          if checkQuantities order removedCount then
            match processLines d booksFulfilled with
            | .error e => .error (e, d)
            | .ok processedFulfilment =>
                applyWrites (d.removeOrder orderId) processedFulfilment
          else .error (.QuantityMismatch, d)

/-- Signed sum of the quantities of all lines naming book `b` (0 when no
line does): the per-book total the quantity-match check compares against
the order's requirement. -/
def linesSum : List FulfilBookItem → BookID → Int
  | [], _ => 0
  | l :: rest, b => (if l.book = b then l.numberOfBooks else 0) + linesSum rest b

/-- Whether some line names book `b`. -/
def linesHas : List FulfilBookItem → BookID → Bool
  | [], _ => false
  | l :: rest, b => decide (l.book = b) || linesHas rest b

/-- The `numberOfBooks` of the LAST line naming the pair (b, s), when any
line does: under the commit phase's absolute writes in line order, the last
write to a pair is the one that survives. -/
def lastVal : List FulfilBookItem → BookID → ShelfId → Option Int
  | [], _, _ => none
  | l :: rest, b, s =>
      match lastVal rest b s with
      | some v => some v
      | none => if l.book = b ∧ l.shelf = s then some l.numberOfBooks else none

/-- Number of occurrences of book `b` in a requested-books sequence. -/
def countBook : List BookID → BookID → Int
  | [], _ => 0
  | x :: rest, b => (if x = b then 1 else 0) + countBook rest b

/-- All shelf stock counts are non-negative (the spec's §3 invariant). -/
def NonNegStock (d : WarehouseData) : Prop :=
  ∀ b s, 0 ≤ d.stock b s

/-- One externally invocable mutating operation of the warehouse core. -/
inductive WOp
  | place (book : BookID) (numberOfBooks : Int) (shelf : ShelfId)
  | fulfil (orderId : OrderId) (lines : List FulfilBookItem)

/-- Run one operation; a failed operation leaves the state it carried at
the throw (for a validated failure, the original state). -/
def runOp (d : WarehouseData) : WOp → WarehouseData
  | .place book n shelf =>
      match placeBooksOnShelf d book n shelf with
      | .ok d' => d'
      | .error (_, d') => d'
  | .fulfil orderId lines =>
      match fulfilOrder d orderId lines with
      | .ok d' => d'
      | .error (_, d') => d'

/-- Run a sequence of operations left to right. -/
def runOps (d : WarehouseData) : List WOp → WarehouseData
  | [] => d
  | op :: rest => runOps (runOp d op) rest

/-! ### Concrete example states -/

/-- Empty store: no stock anywhere, no pending orders. -/
def dEmptyAll : WarehouseData where
  stock := fun _ _ => 0
  orders := fun _ => none

/-- Store with one pending order `o1` requiring one copy of `X`, and every
shelf empty. -/
def dEmptyStock : WarehouseData where
  stock := fun _ _ => 0
  orders := fun i => if i = "o1" then some [("X", 1)] else none

/-- Store with one pending order `o1` requiring one copy of `X`, and one
copy of `X` on shelf `A`. -/
def dStocked : WarehouseData where
  stock := fun b s => if b = "X" ∧ s = "A" then 1 else 0
  orders := fun i => if i = "o1" then some [("X", 1)] else none

/-- Store for the spec's Scenario C: order `o` requires `{X: 2, Y: 1}`,
shelf `A` holds two copies of `X` and one of `Y`. -/
def dScenC : WarehouseData where
  stock := fun b s =>
    if s = "A" then (if b = "X" then 2 else if b = "Y" then 1 else 0) else 0
  orders := fun i => if i = "o" then some [("X", 2), ("Y", 1)] else none

/-- Store with an order `o` requiring two copies of `X` while shelf `A`
holds only one copy. -/
def dDup : WarehouseData where
  stock := fun b s => if b = "X" ∧ s = "A" then 1 else 0
  orders := fun i => if i = "o" then some [("X", 2)] else none

/-- Store with an order `o` requiring one copy of `X` and two copies of `X`
on shelf `A` (shelf `B` empty). -/
def dNegLine : WarehouseData where
  stock := fun b s => if b = "X" ∧ s = "A" then 2 else 0
  orders := fun i => if i = "o" then some [("X", 1)] else none

/-- Store with an order `o` requiring three copies of `X` while shelf `A`
holds two copies. -/
def dDup2 : WarehouseData where
  stock := fun b s => if b = "X" ∧ s = "A" then 2 else 0
  orders := fun i => if i = "o" then some [("X", 3)] else none

/-- Observer: the stock of (b, s) in the state a warehouse operation
returned, `none` when the operation failed. -/
def stockAfter (r : Except (WErr × WarehouseData) WarehouseData) (b : BookID)
    (s : ShelfId) : Option Int :=
  match r with
  | .ok d => some (d.stock b s)
  | .error _ => none

/-- Observer: the Order-Store entry of `oid` in the state a warehouse
operation returned, `none` when the operation failed. -/
def orderAfter (r : Except (WErr × WarehouseData) WarehouseData) (oid : OrderId) :
    Option (Option OrderRec) :=
  match r with
  | .ok d => some (d.orders oid)
  | .error _ => none

/-- Two consecutive shelf placements of the same book on the same shelf,
the second starting from the first's resulting state. -/
def placeTwice (d : WarehouseData) (book : BookID) (n m : Int) (shelf : ShelfId) :
    Except (WErr × WarehouseData) WarehouseData :=
  match placeBooksOnShelf d book n shelf with
  | .error e => .error e
  | .ok d₁ => placeBooksOnShelf d₁ book m shelf

/-! ### Record lemmas -/

theorem getR_setR (m : OrderRec) (k : BookID) (v : Int) (b : BookID) :
    getR (setR m k v) b = if k = b then some v else getR m b := by
  induction m with
  | nil => simp [setR, getR]
  | cons kv rest ih =>
      obtain ⟨k', v'⟩ := kv
      by_cases hk : k' = k
      · subst hk
        by_cases hb : k' = b <;> simp [setR, getR, hb]
      · by_cases hb : k' = b
        · subst hb
          have hkb : ¬ k = k' := fun h => hk h.symm
          simp [setR, getR, hk, hkb, ih]
        · simp [setR, getR, hk, hb, ih]

theorem getR_of_nodup {m : OrderRec} (hnd : (m.map Prod.fst).Nodup)
    {kv : BookID × Int} (hm : kv ∈ m) : getR m kv.1 = some kv.2 := by
  induction m with
  | nil => cases hm
  | cons hd rest ih =>
      obtain ⟨k', v'⟩ := hd
      rcases List.mem_cons.mp hm with hm | hm
      · subst hm
        simp [getR]
      · have hnd' := hnd
        simp only [List.map_cons, List.nodup_cons] at hnd'
        have hne : ¬ k' = kv.1 := by
          intro h
          exact hnd'.1 (h ▸ List.mem_map_of_mem Prod.fst hm)
        simp [getR, hne, ih hnd'.2 hm]

theorem mem_keys_iff_getR {m : OrderRec} {b : BookID} :
    b ∈ m.map Prod.fst ↔ (getR m b).isSome := by
  induction m with
  | nil => simp [getR]
  | cons hd rest ih =>
      obtain ⟨k', v'⟩ := hd
      by_cases hb : k' = b
      · simp [getR, hb]
      · have hb' : ¬ b = k' := fun h => hb h.symm
        simp only [List.map_cons, List.mem_cons]
        rw [getR]
        simp only [if_neg hb]
        simp [hb', ih]

/-! ### Line-list lemmas -/

theorem linesSum_of_not_has {items : List FulfilBookItem} {b : BookID}
    (h : linesHas items b = false) : linesSum items b = 0 := by
  induction items with
  | nil => rfl
  | cons l rest ih =>
      rw [linesHas] at h
      rcases Bool.or_eq_false_iff.mp h with ⟨h1, h2⟩
      have hb : ¬ l.book = b := by simpa using h1
      simp [linesSum, hb, ih h2]

theorem lastVal_mem {items : List FulfilBookItem} {b : BookID} {s : ShelfId} {q : Int}
    (h : lastVal items b s = some q) :
    ∃ l ∈ items, l.book = b ∧ l.shelf = s ∧ l.numberOfBooks = q := by
  induction items with
  | nil => simp [lastVal] at h
  | cons l rest ih =>
      rw [lastVal] at h
      cases hrest : lastVal rest b s with
      | some v =>
          rw [hrest] at h
          have hv : v = q := Option.some.inj h
          subst hv
          obtain ⟨l', hl', hprop⟩ := ih hrest
          exact ⟨l', List.mem_cons_of_mem l hl', hprop⟩
      | none =>
          rw [hrest] at h
          by_cases hbs : l.book = b ∧ l.shelf = s
          · rw [if_pos hbs] at h
            exact ⟨l, List.mem_cons_self l rest, hbs.1, hbs.2, Option.some.inj h⟩
          · rw [if_neg hbs] at h
            cases h

/-! ### Membership-and-tally loop lemmas -/

theorem buildRemovedCount_ok {order : OrderRec} {items : List FulfilBookItem} (acc : OrderRec)
    (h : ∀ l ∈ items, (getR order l.book).isSome = true) :
    ∃ r, buildRemovedCount order items acc = .ok r := by
  induction items generalizing acc with
  | nil => exact ⟨acc, rfl⟩
  | cons l rest ih =>
      rw [buildRemovedCount, if_pos (h l (List.mem_cons_self l rest))]
      exact ih _ fun l' hl' => h l' (List.mem_cons_of_mem l hl')

theorem buildRemovedCount_err {order : OrderRec} {items : List FulfilBookItem} (acc : OrderRec)
    (h : ∃ l ∈ items, ¬ (getR order l.book).isSome = true) :
    buildRemovedCount order items acc = .error .UnknownBookInOrder := by
  induction items generalizing acc with
  | nil => simp at h
  | cons l rest ih =>
      by_cases hl : (getR order l.book).isSome = true
      · rw [buildRemovedCount, if_pos hl]
        apply ih
        obtain ⟨l', hl', hmem⟩ := h
        rcases List.mem_cons.mp hl' with h1 | h1
        · exact absurd (h1 ▸ hl) hmem
        · exact ⟨l', h1, hmem⟩
      · rw [buildRemovedCount, if_neg hl]

theorem getR_buildRemovedCount {order : OrderRec} {items : List FulfilBookItem}
    {acc r : OrderRec} (h : buildRemovedCount order items acc = .ok r) (b : BookID) :
    getR r b = if linesHas items b then some (linesSum items b + (getR acc b).getD 0)
               else getR acc b := by
  induction items generalizing acc with
  | nil =>
      rw [buildRemovedCount] at h
      have hr : acc = r := Except.ok.inj h
      subst hr
      simp [linesHas, linesSum]
  | cons l rest ih =>
      rw [buildRemovedCount] at h
      by_cases hmem : (getR order l.book).isSome = true
      · rw [if_pos hmem] at h
        rw [ih h]
        by_cases hb : l.book = b
        · have hacc : getR (setR acc l.book (l.numberOfBooks + (getR acc l.book).getD 0)) b
              = some (l.numberOfBooks + (getR acc b).getD 0) := by
            rw [getR_setR, if_pos hb, hb]
          by_cases hr : linesHas rest b = true
          · rw [if_pos hr, hacc]
            have hh : linesHas (l :: rest) b = true := by simp [linesHas, hb, hr]
            rw [if_pos hh]
            simp only [linesSum, if_pos hb, Option.getD_some, Option.some.injEq]
            ring
          · have hr' : linesHas rest b = false := by
              revert hr; cases linesHas rest b <;> simp
            rw [if_neg (by simp [hr']), hacc]
            have hh : linesHas (l :: rest) b = true := by simp [linesHas, hb]
            rw [if_pos hh]
            simp only [linesSum, if_pos hb, linesSum_of_not_has hr', Option.some.injEq]
            ring
        · have hacc : getR (setR acc l.book (l.numberOfBooks + (getR acc l.book).getD 0)) b
              = getR acc b := by
            rw [getR_setR, if_neg hb]
          have hh : linesHas (l :: rest) b = linesHas rest b := by simp [linesHas, hb]
          have hs : linesSum (l :: rest) b = linesSum rest b := by simp [linesSum, hb]
          rw [hacc, hh, hs]
      · rw [if_neg hmem] at h
        simp at h

/-! ### Quantity-check lemmas -/

theorem checkQuantities_iff {order rc : OrderRec} :
    checkQuantities order rc = true ↔ ∀ kv ∈ order, getR rc kv.1 = getR order kv.1 := by
  simp [checkQuantities, List.all_eq_true]

theorem checkQuantities_sem {order rc : OrderRec} {items : List FulfilBookItem}
    (hnd : (order.map Prod.fst).Nodup) (hpos : ∀ kv ∈ order, 1 ≤ kv.2)
    (hbr : buildRemovedCount order items [] = .ok rc) :
    (checkQuantities order rc = true ↔ ∀ kv ∈ order, linesSum items kv.1 = kv.2) := by
  rw [checkQuantities_iff]
  constructor
  · intro h kv hkv
    have h1 := h kv hkv
    rw [getR_of_nodup hnd hkv, getR_buildRemovedCount hbr] at h1
    by_cases hh : linesHas items kv.1 = true
    · rw [if_pos hh] at h1
      simp only [getR, Option.getD_none, Option.some.injEq] at h1
      omega
    · rw [if_neg hh] at h1
      simp [getR] at h1
  · intro h kv hkv
    rw [getR_of_nodup hnd hkv, getR_buildRemovedCount hbr]
    have hsum := h kv hkv
    have hk2 := hpos kv hkv
    have hh : linesHas items kv.1 = true := by
      by_contra hh'
      have hf : linesHas items kv.1 = false := by
        revert hh'; cases linesHas items kv.1 <;> simp
      have := linesSum_of_not_has hf
      omega
    rw [if_pos hh]
    simp only [getR, Option.getD_none, Option.some.injEq]
    omega

/-! ### Stock-check phase lemmas -/

theorem processLines_ok {d : WarehouseData} {items : List FulfilBookItem}
    (h : ∀ l ∈ items, 0 ≤ d.stock l.book l.shelf - l.numberOfBooks) :
    processLines d items
      = .ok (items.map fun l => ⟨l.book, l.shelf, d.stock l.book l.shelf - l.numberOfBooks⟩) := by
  induction items with
  | nil => rfl
  | cons l rest ih =>
      rw [processLines]
      simp only [WarehouseData.getCopiesOnShelf]
      rw [if_neg (by have := h l (List.mem_cons_self l rest); omega)]
      rw [ih fun l' hl' => h l' (List.mem_cons_of_mem l hl')]
      rfl

theorem processLines_err {d : WarehouseData} {items : List FulfilBookItem}
    (h : ∃ l ∈ items, d.stock l.book l.shelf - l.numberOfBooks < 0) :
    processLines d items = .error .InsufficientStock := by
  induction items with
  | nil => simp at h
  | cons l rest ih =>
      rw [processLines]
      simp only [WarehouseData.getCopiesOnShelf]
      by_cases h0 : d.stock l.book l.shelf - l.numberOfBooks < 0
      · rw [if_pos h0]
      · rw [if_neg h0]
        obtain ⟨l', hl', hneg⟩ := h
        rcases List.mem_cons.mp hl' with h1 | h1
        · exact absurd (h1 ▸ hneg) h0
        · rw [ih ⟨l', h1, hneg⟩]

theorem processLines_ok_val {d : WarehouseData} {items ps : List FulfilBookItem}
    (h : processLines d items = .ok ps) :
    (∀ l ∈ items, 0 ≤ d.stock l.book l.shelf - l.numberOfBooks) ∧
    ps = items.map fun l => ⟨l.book, l.shelf, d.stock l.book l.shelf - l.numberOfBooks⟩ := by
  induction items generalizing ps with
  | nil =>
      rw [processLines] at h
      have := Except.ok.inj h
      subst this
      simp
  | cons l rest ih =>
      rw [processLines] at h
      simp only [WarehouseData.getCopiesOnShelf] at h
      by_cases h0 : d.stock l.book l.shelf - l.numberOfBooks < 0
      · rw [if_pos h0] at h
        simp at h
      · rw [if_neg h0] at h
        cases hrest : processLines d rest with
        | error e =>
            rw [hrest] at h
            simp at h
        | ok rest' =>
            rw [hrest] at h
            have hps := Except.ok.inj h
            obtain ⟨ha, hb⟩ := ih hrest
            subst hps
            refine ⟨?_, by simp [hb]⟩
            intro l' hl'
            rcases List.mem_cons.mp hl' with h1 | h1
            · subst h1; omega
            · exact ha l' h1

/-! ### Commit-phase lemmas -/

theorem placeBookOnShelf_ok {d : WarehouseData} {book : BookID} {shelf : ShelfId} {n : Int}
    (h : 0 ≤ n) :
    d.placeBookOnShelf book shelf n = .ok { d with
      stock := fun b s =>
        if b = book then (if s = shelf then n else d.stock b s) else d.stock b s } := by
  rw [WarehouseData.placeBookOnShelf, if_neg (not_lt.mpr h)]

theorem applyWrites_ok {ps : List FulfilBookItem} (d : WarehouseData)
    (h : ∀ l ∈ ps, 0 ≤ l.numberOfBooks) :
    ∃ d', applyWrites d ps = .ok d' ∧ d'.orders = d.orders ∧
      ∀ b s, d'.stock b s = (lastVal ps b s).getD (d.stock b s) := by
  induction ps generalizing d with
  | nil => exact ⟨d, rfl, rfl, by simp [lastVal]⟩
  | cons l rest ih =>
      rw [applyWrites, placeBookOnShelf_ok (h l (List.mem_cons_self l rest))]
      obtain ⟨d', hd', ho, hs⟩ :=
        ih { d with stock := fun b s =>
              if b = l.book then (if s = l.shelf then l.numberOfBooks else d.stock b s)
              else d.stock b s }
          (fun l' hl' => h l' (List.mem_cons_of_mem l hl'))
      refine ⟨d', hd', ho, ?_⟩
      intro b s
      rw [hs b s, lastVal]
      cases hlv : lastVal rest b s with
      | some v => simp
      | none =>
          by_cases hbs : l.book = b ∧ l.shelf = s
          · rw [if_pos hbs]
            obtain ⟨h1, h2⟩ := hbs
            simp [h1, h2]
          · rw [if_neg hbs]
            simp only [Option.getD_none]
            by_cases h1 : b = l.book
            · have h2 : ¬ s = l.shelf := fun h2 => hbs ⟨h1.symm, h2.symm⟩
              simp [h1, h2]
            · simp [h1]

theorem lastVal_map {d : WarehouseData} (items : List FulfilBookItem) (b : BookID)
    (s : ShelfId) :
    lastVal (items.map fun l => ⟨l.book, l.shelf, d.stock l.book l.shelf - l.numberOfBooks⟩) b s
      = (lastVal items b s).map fun q => d.stock b s - q := by
  induction items with
  | nil => rfl
  | cons l rest ih =>
      simp only [List.map_cons]
      rw [lastVal, lastVal, ih]
      cases hlv : lastVal rest b s with
      | some v => simp
      | none =>
          simp only [Option.map_none']
          by_cases hbs : l.book = b ∧ l.shelf = s
          · obtain ⟨h1, h2⟩ := hbs
            simp [h1, h2]
          · simp only [if_neg hbs]
            rfl

theorem lastVal_of_nodup {items : List FulfilBookItem}
    (hnd : (items.map fun l => (l.book, l.shelf)).Nodup) {l : FulfilBookItem}
    (hl : l ∈ items) : lastVal items l.book l.shelf = some l.numberOfBooks := by
  induction items with
  | nil => cases hl
  | cons a rest ih =>
      simp only [List.map_cons, List.nodup_cons] at hnd
      rcases List.mem_cons.mp hl with h1 | h1
      · subst h1
        rw [lastVal]
        have hnone : lastVal rest l.book l.shelf = none := by
          cases hlv : lastVal rest l.book l.shelf with
          | none => rfl
          | some q =>
              obtain ⟨l', hl', hb, hs, _⟩ := lastVal_mem hlv
              exact absurd
                (show (l.book, l.shelf) ∈ rest.map fun x => (x.book, x.shelf) by
                  rw [← hb, ← hs]
                  exact List.mem_map_of_mem _ hl')
                hnd.1
        rw [hnone]
        simp
      · rw [lastVal, ih hnd.2 h1]

/-! ### fulfilOrder master lemmas -/

theorem buildRemovedCount_ok_mem {order : OrderRec} {items : List FulfilBookItem}
    {acc r : OrderRec} (h : buildRemovedCount order items acc = .ok r) :
    ∀ l ∈ items, (getR order l.book).isSome = true := by
  induction items generalizing acc with
  | nil => simp
  | cons l rest ih =>
      rw [buildRemovedCount] at h
      by_cases hm : (getR order l.book).isSome = true
      · rw [if_pos hm] at h
        intro l' hl'
        rcases List.mem_cons.mp hl' with h1 | h1
        · exact h1 ▸ hm
        · exact ih h l' h1
      · rw [if_neg hm] at h
        simp at h

theorem processLines_ps_nonneg {d : WarehouseData} {items ps : List FulfilBookItem}
    (h : processLines d items = .ok ps) : ∀ l ∈ ps, 0 ≤ l.numberOfBooks := by
  obtain ⟨ha, hb⟩ := processLines_ok_val h
  subst hb
  intro l hl
  obtain ⟨l', hl', hmap⟩ := List.mem_map.mp hl
  rw [← hmap]
  exact ha l' hl'

theorem fulfilOrder_eq_none {d : WarehouseData} {oid : OrderId}
    {items : List FulfilBookItem} (hord : d.getOrder oid = none) :
    fulfilOrder d oid items = .error (.OrderNotFound, d) := by
  rw [fulfilOrder, hord]

theorem fulfilOrder_eq_some {d : WarehouseData} {oid : OrderId}
    {items : List FulfilBookItem} {order : OrderRec} (hord : d.getOrder oid = some order) :
    fulfilOrder d oid items =
      match buildRemovedCount order items [] with
      | .error e => .error (e, d)
      | .ok removedCount =>
          if checkQuantities order removedCount then
            match processLines d items with
            | .error e => .error (e, d)
            | .ok processedFulfilment =>
                applyWrites (d.removeOrder oid) processedFulfilment
          else .error (.QuantityMismatch, d) := by
  rw [fulfilOrder, hord]

theorem fulfilOrder_ok_elim {d : WarehouseData} {oid : OrderId}
    {items : List FulfilBookItem} {d' : WarehouseData} {order : OrderRec}
    (hord : d.getOrder oid = some order) (h : fulfilOrder d oid items = .ok d') :
    ∃ rc ps, buildRemovedCount order items [] = .ok rc ∧ checkQuantities order rc = true ∧
      processLines d items = .ok ps ∧ applyWrites (d.removeOrder oid) ps = .ok d' := by
  rw [fulfilOrder_eq_some hord] at h
  cases hbr : buildRemovedCount order items [] with
  | error e =>
      rw [hbr] at h
      simp at h
  | ok rc =>
      rw [hbr] at h
      dsimp only at h
      by_cases hcq : checkQuantities order rc = true
      · rw [if_pos hcq] at h
        cases hpl : processLines d items with
        | error e =>
            rw [hpl] at h
            simp at h
        | ok ps =>
            rw [hpl] at h
            dsimp only at h
            exact ⟨rc, ps, rfl, hcq, rfl, h⟩
      · rw [if_neg hcq] at h
        simp at h

theorem fulfilOrder_ok_getOrder {d : WarehouseData} {oid : OrderId}
    {items : List FulfilBookItem} {d' : WarehouseData}
    (h : fulfilOrder d oid items = .ok d') : ∃ order, d.getOrder oid = some order := by
  cases hord : d.getOrder oid with
  | none =>
      rw [fulfilOrder_eq_none hord] at h
      simp at h
  | some order => exact ⟨order, rfl⟩

theorem fulfilOrder_ok_of {d : WarehouseData} {oid : OrderId} {order rc : OrderRec}
    {items : List FulfilBookItem} (hord : d.getOrder oid = some order)
    (hbr : buildRemovedCount order items [] = .ok rc)
    (hcq : checkQuantities order rc = true)
    (hstock : ∀ l ∈ items, 0 ≤ d.stock l.book l.shelf - l.numberOfBooks) :
    ∃ d', fulfilOrder d oid items = .ok d' := by
  rw [fulfilOrder_eq_some hord, hbr]
  dsimp only
  rw [if_pos hcq, processLines_ok hstock]
  dsimp only
  have hn : ∀ l ∈ items.map
      (fun l => (⟨l.book, l.shelf, d.stock l.book l.shelf - l.numberOfBooks⟩ :
        FulfilBookItem)), 0 ≤ l.numberOfBooks := by
    intro l hl
    obtain ⟨l', hl', rfl⟩ := List.mem_map.mp hl
    exact hstock l' hl'
  obtain ⟨d', hd', -, -⟩ := applyWrites_ok (d.removeOrder oid) hn
  exact ⟨d', hd'⟩

theorem fulfilOrder_ok_result {d : WarehouseData} {oid : OrderId}
    {items : List FulfilBookItem} {d' : WarehouseData}
    (h : fulfilOrder d oid items = .ok d') :
    d'.orders = (fun i => if i = oid then none else d.orders i) ∧
    ∀ b s, d'.stock b s
      = ((lastVal items b s).map fun q => d.stock b s - q).getD (d.stock b s) := by
  obtain ⟨order, hord⟩ := fulfilOrder_ok_getOrder h
  obtain ⟨rc, ps, hbr, hcq, hpl, haw⟩ := fulfilOrder_ok_elim hord h
  have hn := processLines_ps_nonneg hpl
  obtain ⟨d'', hd'', ho, hs⟩ := applyWrites_ok (d.removeOrder oid) hn
  have heq : d'' = d' := by
    rw [haw] at hd''
    exact (Except.ok.inj hd'').symm
  subst heq
  obtain ⟨-, hval⟩ := processLines_ok_val hpl
  subst hval
  refine ⟨ho, ?_⟩
  intro b s
  rw [hs b s, lastVal_map]
  rfl

theorem fulfilOrder_ok_lines {d : WarehouseData} {oid : OrderId}
    {items : List FulfilBookItem} {d' : WarehouseData}
    (h : fulfilOrder d oid items = .ok d') :
    ∀ l ∈ items, 0 ≤ d.stock l.book l.shelf - l.numberOfBooks := by
  obtain ⟨order, hord⟩ := fulfilOrder_ok_getOrder h
  obtain ⟨rc, ps, hbr, hcq, hpl, haw⟩ := fulfilOrder_ok_elim hord h
  exact (processLines_ok_val hpl).1

theorem fulfilOrder_err_eq {d : WarehouseData} {oid : OrderId}
    {items : List FulfilBookItem} {e : WErr} {d₂ : WarehouseData}
    (h : fulfilOrder d oid items = .error (e, d₂)) : d₂ = d := by
  cases hord : d.getOrder oid with
  | none =>
      rw [fulfilOrder_eq_none hord] at h
      exact (congrArg Prod.snd (Except.error.inj h)).symm
  | some order =>
      rw [fulfilOrder_eq_some hord] at h
      cases hbr : buildRemovedCount order items [] with
      | error e' =>
          rw [hbr] at h
          dsimp only at h
          exact (congrArg Prod.snd (Except.error.inj h)).symm
      | ok rc =>
          rw [hbr] at h
          dsimp only at h
          by_cases hcq : checkQuantities order rc = true
          · rw [if_pos hcq] at h
            cases hpl : processLines d items with
            | error e' =>
                rw [hpl] at h
                dsimp only at h
                exact (congrArg Prod.snd (Except.error.inj h)).symm
            | ok ps =>
                rw [hpl] at h
                dsimp only at h
                obtain ⟨d'', hd'', -, -⟩ :=
                  applyWrites_ok (d.removeOrder oid) (processLines_ps_nonneg hpl)
                rw [hd''] at h
                simp at h
          · rw [if_neg hcq] at h
            exact (congrArg Prod.snd (Except.error.inj h)).symm

/-! ### fulfilOrder error-kind lemmas -/

theorem fulfilOrder_err_unknown {d : WarehouseData} {oid : OrderId} {order : OrderRec}
    {items : List FulfilBookItem} (hord : d.getOrder oid = some order)
    (h : ∃ l ∈ items, ¬ (getR order l.book).isSome = true) :
    fulfilOrder d oid items = .error (.UnknownBookInOrder, d) := by
  rw [fulfilOrder_eq_some hord, buildRemovedCount_err [] h]

theorem fulfilOrder_err_quantity {d : WarehouseData} {oid : OrderId} {order : OrderRec}
    {items : List FulfilBookItem} (hord : d.getOrder oid = some order)
    (hnd : (order.map Prod.fst).Nodup) (hpos : ∀ kv ∈ order, 1 ≤ kv.2)
    (hmem : ∀ l ∈ items, (getR order l.book).isSome = true)
    (hsum : ¬ ∀ kv ∈ order, linesSum items kv.1 = kv.2) :
    fulfilOrder d oid items = .error (.QuantityMismatch, d) := by
  obtain ⟨rc, hbr⟩ := buildRemovedCount_ok [] hmem
  have hcq : ¬ checkQuantities order rc = true :=
    fun hc => hsum ((checkQuantities_sem hnd hpos hbr).mp hc)
  rw [fulfilOrder_eq_some hord, hbr]
  dsimp only
  rw [if_neg hcq]

theorem fulfilOrder_err_stock {d : WarehouseData} {oid : OrderId} {order : OrderRec}
    {items : List FulfilBookItem} (hord : d.getOrder oid = some order)
    (hnd : (order.map Prod.fst).Nodup) (hpos : ∀ kv ∈ order, 1 ≤ kv.2)
    (hmem : ∀ l ∈ items, (getR order l.book).isSome = true)
    (hsum : ∀ kv ∈ order, linesSum items kv.1 = kv.2)
    (hins : ∃ l ∈ items, d.stock l.book l.shelf - l.numberOfBooks < 0) :
    fulfilOrder d oid items = .error (.InsufficientStock, d) := by
  obtain ⟨rc, hbr⟩ := buildRemovedCount_ok [] hmem
  have hcq : checkQuantities order rc = true :=
    (checkQuantities_sem hnd hpos hbr).mpr hsum
  rw [fulfilOrder_eq_some hord, hbr]
  dsimp only
  rw [if_pos hcq, processLines_err hins]

/-! ### placeBooksOnShelf unfolding lemmas -/

theorem placeBooksOnShelf_neg {d : WarehouseData} {book : BookID} {n : Int}
    {shelf : ShelfId} (hn : n < 0) :
    placeBooksOnShelf d book n shelf = .error (.ValidationError, d) := by
  rw [placeBooksOnShelf, if_pos hn]

theorem placeBooksOnShelf_ok_eq {d : WarehouseData} {book : BookID} {n : Int}
    {shelf : ShelfId} (hn : ¬ n < 0) (h0 : 0 ≤ d.stock book shelf + n) :
    placeBooksOnShelf d book n shelf = .ok { d with
      stock := fun b s =>
        if b = book then (if s = shelf then d.stock book shelf + n else d.stock b s)
        else d.stock b s } := by
  rw [placeBooksOnShelf, if_neg hn]
  dsimp only [WarehouseData.getCopiesOnShelf]
  rw [placeBookOnShelf_ok h0]

/-! ### Order tally lemmas -/

theorem countBook_nonneg (books : List BookID) (b : BookID) : 0 ≤ countBook books b := by
  induction books with
  | nil => simp [countBook]
  | cons x rest ih =>
      rw [countBook]
      by_cases hx : x = b <;> simp [hx] <;> omega

theorem getR_tallyOrder (books : List BookID) (acc : OrderRec) (b : BookID) :
    getR (tallyOrder books acc) b
      = if countBook books b = 0 then getR acc b
        else some ((getR acc b).getD 0 + countBook books b) := by
  induction books generalizing acc with
  | nil => simp [tallyOrder, countBook]
  | cons x rest ih =>
      rw [tallyOrder, ih]
      by_cases hx : x = b
      · have hacc : getR (setR acc x (1 + (getR acc x).getD 0)) b
            = some (1 + (getR acc b).getD 0) := by
          rw [getR_setR, if_pos hx, hx]
        have hc : countBook (x :: rest) b = 1 + countBook rest b := by
          rw [countBook, if_pos hx]
        have hcn := countBook_nonneg rest b
        by_cases hr : countBook rest b = 0
        · rw [if_pos hr, hacc, hc, hr]
          rw [if_neg (by omega)]
          simp only [Option.some.injEq]
          omega
        · rw [if_neg hr, hacc, hc]
          rw [if_neg (by omega)]
          simp only [Option.getD_some, Option.some.injEq]
          omega
      · have hacc : getR (setR acc x (1 + (getR acc x).getD 0)) b = getR acc b := by
          rw [getR_setR, if_neg hx]
        have hc : countBook (x :: rest) b = countBook rest b := by
          rw [countBook, if_neg hx]
          omega
        rw [hacc, hc]

/-! ### Non-negativity preservation -/

theorem runOp_nonneg {d : WarehouseData} (hd : NonNegStock d) (op : WOp) :
    NonNegStock (runOp d op) := by
  cases op with
  | place book n shelf =>
      rw [runOp]
      by_cases hn : n < 0
      · rw [placeBooksOnShelf_neg hn]
        exact hd
      · rw [placeBooksOnShelf_ok_eq hn (by have := hd book shelf; omega)]
        dsimp only
        intro b s
        by_cases hb : b = book
        · by_cases hs : s = shelf
          · simp only [if_pos hb, if_pos hs]
            have := hd book shelf
            omega
          · simp only [if_pos hb, if_neg hs]
            exact hd b s
        · simp only [if_neg hb]
          exact hd b s
  | fulfil oid lines =>
      rw [runOp]
      cases hres : fulfilOrder d oid lines with
      | ok d' =>
          dsimp only
          intro b s
          rw [(fulfilOrder_ok_result hres).2 b s]
          cases hlv : lastVal lines b s with
          | none => exact hd b s
          | some q =>
              simp only [Option.map_some', Option.getD_some]
              obtain ⟨l, hl, hb, hs, hq⟩ := lastVal_mem hlv
              have := fulfilOrder_ok_lines hres l hl
              rw [hb, hs, hq] at this
              omega
      | error p =>
          obtain ⟨e, d₂⟩ := p
          dsimp only
          rw [fulfilOrder_err_eq hres]
          exact hd

theorem runOps_nonneg {d : WarehouseData} (hd : NonNegStock d) (ops : List WOp) :
    NonNegStock (runOps d ops) := by
  induction ops generalizing d with
  | nil => exact hd
  | cons op rest ih => exact ih (runOp_nonneg hd op)

/-! ### Claim theorems -/

/-- C1 (counterexample to the claim as stated): for the order `o1`
requiring `{X: 1}` (distinct keys, quantities ≥ 1) and the single line
`{X, A, 1}`, every line's book is in the order and the per-book sums equal
the required quantities exactly, yet `fulfilOrder` does not succeed: it
fails with `InsufficientStock` because shelf `A` is empty. The claimed
equivalence omits the stock-sufficiency precondition. -/
theorem fulfil_conservation_counterexample :
    dEmptyStock.getOrder "o1" = some [("X", 1)] ∧
    (getR [("X", (1 : Int))] "X").isSome = true ∧
    linesSum [(⟨"X", "A", 1⟩ : FulfilBookItem)] "X" = 1 ∧
    fulfilOrder dEmptyStock "o1" [(⟨"X", "A", 1⟩ : FulfilBookItem)]
      = .error (.InsufficientStock, dEmptyStock) :=
  ⟨rfl, by decide, by decide, rfl⟩

/-- C1 (amended): for an order stored under `oid` with distinct book keys
and required quantities ≥ 1, `fulfilOrder` succeeds iff every line's book
belongs to the order, the lines' quantities sum to exactly the required
quantity for every book of the order, AND every line's shelf holds enough
stock (pre-read count minus the line's quantity is non-negative); after a
successful fulfillment the order is absent from the Order Store. -/
theorem fulfil_conservation (d : WarehouseData) (oid : OrderId) (order : OrderRec)
    (items : List FulfilBookItem) (hord : d.getOrder oid = some order)
    (hnd : (order.map Prod.fst).Nodup) (hpos : ∀ kv ∈ order, 1 ≤ kv.2) :
    ((∃ d', fulfilOrder d oid items = .ok d') ↔
      (∀ l ∈ items, (getR order l.book).isSome = true) ∧
      (∀ kv ∈ order, linesSum items kv.1 = kv.2) ∧
      (∀ l ∈ items, 0 ≤ d.stock l.book l.shelf - l.numberOfBooks)) ∧
    (∀ d', fulfilOrder d oid items = .ok d' → d'.orders oid = none) := by
  constructor
  · constructor
    · rintro ⟨d', hd'⟩
      obtain ⟨rc, ps, hbr, hcq, hpl, -⟩ := fulfilOrder_ok_elim hord hd'
      exact ⟨buildRemovedCount_ok_mem hbr, (checkQuantities_sem hnd hpos hbr).mp hcq,
        (processLines_ok_val hpl).1⟩
    · rintro ⟨hmem, hsum, hstock⟩
      obtain ⟨rc, hbr⟩ := buildRemovedCount_ok [] hmem
      exact fulfilOrder_ok_of hord hbr ((checkQuantities_sem hnd hpos hbr).mpr hsum) hstock
  · intro d' hd'
    rw [(fulfilOrder_ok_result hd').1]
    simp

/-- C1 witness: the amended equivalence applied to the concrete store
`dStocked` (order `{X: 1}`, one copy of `X` on shelf `A`): fulfillment with
the line `{X, A, 1}` succeeds and removes the order. -/
theorem fulfil_conservation_witness :
    (fulfilOrder dStocked "o1" [(⟨"X", "A", 1⟩ : FulfilBookItem)]).isOk = true ∧
    orderAfter (fulfilOrder dStocked "o1" [(⟨"X", "A", 1⟩ : FulfilBookItem)]) "o1"
      = some none := by
  have h := fulfil_conservation dStocked "o1" [("X", 1)]
    [(⟨"X", "A", 1⟩ : FulfilBookItem)] rfl (by decide) (by decide)
  obtain ⟨d', hd'⟩ := h.1.mpr ⟨by decide, by decide, by decide⟩
  rw [hd']
  exact ⟨rfl, by rw [orderAfter, h.2 d' hd']⟩

/-- C2: whenever `fulfilOrder` fails — with any of its error kinds — the
state carried at the throw is exactly the input state: the order store and
every shelf's stock are unchanged, because every validation failure is
raised before the first mutating store call and the commit-phase writes
(of validated non-negative counts) cannot fail. -/
theorem fulfil_atomic_on_failure (d : WarehouseData) (oid : OrderId)
    (items : List FulfilBookItem) (e : WErr) (d₂ : WarehouseData)
    (h : fulfilOrder d oid items = .error (e, d₂)) :
    d₂ = d ∧ d₂.orders oid = d.orders oid ∧ ∀ b s, d₂.stock b s = d.stock b s := by
  have heq := fulfilOrder_err_eq h
  subst heq
  exact ⟨rfl, rfl, fun _ _ => rfl⟩

/-- C2 witness: the atomicity theorem applied at a concrete failing call
(fulfilling a nonexistent order on the empty store). -/
theorem fulfil_atomic_on_failure_witness :
    fulfilOrder dEmptyAll "o" [] = .error (.OrderNotFound, dEmptyAll) ∧
    dEmptyAll = dEmptyAll :=
  ⟨rfl, (fulfil_atomic_on_failure dEmptyAll "o" [] .OrderNotFound dEmptyAll rfl).1⟩

/-- C3: starting from any state whose shelf counts are all non-negative,
every sequence of `placeBooksOnShelf` and `fulfilOrder` operations leaves
every shelf count non-negative; an operation that would drive a count
negative is rejected wholesale (the failed operation leaves the state
unchanged, as the `runOp` error branches carry the pre-call state). -/
theorem stock_nonneg_invariant (d : WarehouseData) (hd : NonNegStock d)
    (ops : List WOp) : NonNegStock (runOps d ops) :=
  runOps_nonneg hd ops

/-- C3 witness: the invariant applied to the empty store and a concrete
operation sequence (a placement followed by an over-drawing fulfillment
attempt). -/
theorem stock_nonneg_invariant_witness :
    NonNegStock (runOps dEmptyAll
      [WOp.place "X" 5 "A", WOp.fulfil "o" [(⟨"X", "A", 9⟩ : FulfilBookItem)]]) :=
  stock_nonneg_invariant dEmptyAll (fun _ _ => le_refl 0)
    [WOp.place "X" 5 "A", WOp.fulfil "o" [(⟨"X", "A", 9⟩ : FulfilBookItem)]]

/-- C4 (amended): on a successful `fulfilOrder` whose lines name pairwise-distinct
(book, shelf) pairs, the order record is deleted from the Order Store and
each line's shelf stock ends at the value read at validation time minus the
line's quantity. -/
theorem fulfil_commit_semantics (d : WarehouseData) (oid : OrderId)
    (items : List FulfilBookItem) (d' : WarehouseData)
    (h : fulfilOrder d oid items = .ok d')
    (hnd : (items.map fun l => (l.book, l.shelf)).Nodup) :
    d'.orders oid = none ∧
    ∀ l ∈ items, d'.stock l.book l.shelf = d.stock l.book l.shelf - l.numberOfBooks := by
  obtain ⟨ho, hs⟩ := fulfilOrder_ok_result h
  refine ⟨by rw [ho]; simp, ?_⟩
  intro l hl
  rw [hs l.book l.shelf, lastVal_of_nodup hnd hl]
  simp

/-- C4 (counterexample to the claim as stated): with the order `{X: 3}`
and the duplicate-pair lines `[{X, A, 1}, {X, A, 2}]` against shelf `A`
stock 2, fulfillment succeeds but shelf `A` ends at 0, not at the value
read at validation time minus the first line's quantity (2 − 1 = 1): the
per-line final-stock description fails when two lines share a (book,
shelf) pair with different quantities. -/
theorem fulfil_commit_semantics_counterexample :
    (fulfilOrder dDup2 "o"
        [(⟨"X", "A", 1⟩ : FulfilBookItem), (⟨"X", "A", 2⟩ : FulfilBookItem)]).isOk
      = true ∧
    stockAfter (fulfilOrder dDup2 "o"
        [(⟨"X", "A", 1⟩ : FulfilBookItem), (⟨"X", "A", 2⟩ : FulfilBookItem)]) "X" "A"
      = some 0 ∧
    dDup2.stock "X" "A" - 1 = 1 ∧
    stockAfter (fulfilOrder dDup2 "o"
        [(⟨"X", "A", 1⟩ : FulfilBookItem), (⟨"X", "A", 2⟩ : FulfilBookItem)]) "X" "A"
      ≠ some (dDup2.stock "X" "A" - 1) :=
  ⟨rfl, by decide, by decide, by decide⟩

/-- C4 witness: the spec's Scenario C through the commit theorem: the order
`{X: 2, Y: 1}` fulfilled with lines `[{X, A, 2}, {Y, A, 1}]` against shelf
`A` stock `{X: 2, Y: 1}` succeeds, removes the order, and leaves shelf `A`
stock at zero for both books. -/
theorem fulfil_commit_semantics_witness :
    (fulfilOrder dScenC "o"
        [(⟨"X", "A", 2⟩ : FulfilBookItem), (⟨"Y", "A", 1⟩ : FulfilBookItem)]).isOk
      = true ∧
    stockAfter (fulfilOrder dScenC "o"
        [(⟨"X", "A", 2⟩ : FulfilBookItem), (⟨"Y", "A", 1⟩ : FulfilBookItem)]) "X" "A"
      = some 0 ∧
    stockAfter (fulfilOrder dScenC "o"
        [(⟨"X", "A", 2⟩ : FulfilBookItem), (⟨"Y", "A", 1⟩ : FulfilBookItem)]) "Y" "A"
      = some 0 ∧
    orderAfter (fulfilOrder dScenC "o"
        [(⟨"X", "A", 2⟩ : FulfilBookItem), (⟨"Y", "A", 1⟩ : FulfilBookItem)]) "o"
      = some none := by
  obtain ⟨d', hd'⟩ : ∃ d', fulfilOrder dScenC "o"
      [(⟨"X", "A", 2⟩ : FulfilBookItem), (⟨"Y", "A", 1⟩ : FulfilBookItem)] = .ok d' :=
    ⟨_, rfl⟩
  have h := fulfil_commit_semantics dScenC "o"
    [(⟨"X", "A", 2⟩ : FulfilBookItem), (⟨"Y", "A", 1⟩ : FulfilBookItem)] d' hd' (by decide)
  rw [hd']
  refine ⟨rfl, ?_, ?_, by rw [orderAfter, h.1]⟩
  · rw [stockAfter]
    exact congrArg some ((h.2 ⟨"X", "A", 2⟩ (by decide)).trans (by decide))
  · rw [stockAfter]
    exact congrArg some ((h.2 ⟨"Y", "A", 1⟩ (by decide)).trans (by decide))

/-- C5: on any successful `fulfilOrder`, a shelf pair (b, s) named by at
least one line ends at the pre-commit count minus the quantity of the LAST
line naming that pair: every line's new value is computed from the same
pre-commit read and the commit writes absolute values, so with duplicate
(book, shelf) pairs the last write wins instead of the quantities adding. -/
theorem fulfil_last_write_wins (d : WarehouseData) (oid : OrderId)
    (items : List FulfilBookItem) (d' : WarehouseData) (b : BookID) (s : ShelfId)
    (q : Int) (h : fulfilOrder d oid items = .ok d') (hq : lastVal items b s = some q) :
    d'.stock b s = d.stock b s - q := by
  rw [(fulfilOrder_ok_result h).2 b s, hq]
  simp

/-- C5 witness: order `{X: 2}` against shelf `A` holding one copy,
fulfilled with two lines of one copy each: fulfillment succeeds and the
shelf ends at 0 = 1 − 1 (the last line's quantity), not 1 − 2 — only one
copy of stock is removed for two copies fulfilled. -/
theorem fulfil_last_write_wins_witness :
    (fulfilOrder dDup "o"
        [(⟨"X", "A", 1⟩ : FulfilBookItem), (⟨"X", "A", 1⟩ : FulfilBookItem)]).isOk
      = true ∧
    stockAfter (fulfilOrder dDup "o"
        [(⟨"X", "A", 1⟩ : FulfilBookItem), (⟨"X", "A", 1⟩ : FulfilBookItem)]) "X" "A"
      = some (dDup.stock "X" "A" - 1) ∧
    dDup.stock "X" "A" = 1 ∧
    stockAfter (fulfilOrder dDup "o"
        [(⟨"X", "A", 1⟩ : FulfilBookItem), (⟨"X", "A", 1⟩ : FulfilBookItem)]) "X" "A"
      ≠ some (dDup.stock "X" "A" - 2) := by
  obtain ⟨d', hd'⟩ : ∃ d', fulfilOrder dDup "o"
      [(⟨"X", "A", 1⟩ : FulfilBookItem), (⟨"X", "A", 1⟩ : FulfilBookItem)] = .ok d' :=
    ⟨_, rfl⟩
  have h := fulfil_last_write_wins dDup "o"
    [(⟨"X", "A", 1⟩ : FulfilBookItem), (⟨"X", "A", 1⟩ : FulfilBookItem)] d' "X" "A" 1
    hd' (by decide)
  rw [hd']
  refine ⟨rfl, ?_, by decide, ?_⟩
  · rw [stockAfter]
    exact congrArg some h
  · rw [stockAfter, h]
    decide

/-- C6: `fulfilOrder` accepts a line with negative `numberOfBooks`: for the
order `{X: 1}` and lines `[{X, A, 2}, {X, B, −1}]` (signed sums equal the
requirement), fulfillment succeeds and at commit shelf `B`'s stock is set
to its pre-read value minus the negative quantity — the stock increases
from 0 to 1. -/
theorem fulfil_negative_line_accepted :
    (-1 : Int) < 0 ∧
    ∃ d', fulfilOrder dNegLine "o"
        [(⟨"X", "A", 2⟩ : FulfilBookItem), (⟨"X", "B", -1⟩ : FulfilBookItem)] = .ok d' ∧
      dNegLine.stock "X" "B" = 0 ∧
      d'.stock "X" "B" = dNegLine.stock "X" "B" - (-1) ∧
      dNegLine.stock "X" "B" < d'.stock "X" "B" :=
  ⟨by decide, _, rfl, by decide, by decide, by decide⟩

/-- C7: `fulfilOrder` checks its preconditions in the fixed order
existence → membership → exact quantity → stock sufficiency, each failure
aborting the whole call with the corresponding error and the state carried
unchanged; on an input violating several conditions the reported error is
the earliest violated check's. -/
theorem fulfil_error_priority :
    (∀ (d : WarehouseData) (oid : OrderId) (items : List FulfilBookItem),
        d.getOrder oid = none →
        fulfilOrder d oid items = .error (.OrderNotFound, d)) ∧
    (∀ (d : WarehouseData) (oid : OrderId) (order : OrderRec)
        (items : List FulfilBookItem), d.getOrder oid = some order →
        (∃ l ∈ items, ¬ (getR order l.book).isSome = true) →
        fulfilOrder d oid items = .error (.UnknownBookInOrder, d)) ∧
    (∀ (d : WarehouseData) (oid : OrderId) (order : OrderRec)
        (items : List FulfilBookItem), d.getOrder oid = some order →
        (order.map Prod.fst).Nodup → (∀ kv ∈ order, 1 ≤ kv.2) →
        (∀ l ∈ items, (getR order l.book).isSome = true) →
        ¬ (∀ kv ∈ order, linesSum items kv.1 = kv.2) →
        fulfilOrder d oid items = .error (.QuantityMismatch, d)) ∧
    (∀ (d : WarehouseData) (oid : OrderId) (order : OrderRec)
        (items : List FulfilBookItem), d.getOrder oid = some order →
        (order.map Prod.fst).Nodup → (∀ kv ∈ order, 1 ≤ kv.2) →
        (∀ l ∈ items, (getR order l.book).isSome = true) →
        (∀ kv ∈ order, linesSum items kv.1 = kv.2) →
        (∃ l ∈ items, d.stock l.book l.shelf - l.numberOfBooks < 0) →
        fulfilOrder d oid items = .error (.InsufficientStock, d)) :=
  ⟨fun _ _ _ hord => fulfilOrder_eq_none hord,
   fun _ _ _ _ hord hex => fulfilOrder_err_unknown hord hex,
   fun _ _ _ _ hord hnd hpos hmem hsum =>
     fulfilOrder_err_quantity hord hnd hpos hmem hsum,
   fun _ _ _ _ hord hnd hpos hmem hsum hins =>
     fulfilOrder_err_stock hord hnd hpos hmem hsum hins⟩

/-- C7 witness: the four priority conjuncts at concrete inputs, each input
violating every later check as well: a missing order; a line for a book
outside the order (which also mismatches quantities and lacks stock); a
quantity mismatch that also lacks stock; and an exact-quantity plan without
stock. -/
theorem fulfil_error_priority_witness :
    fulfilOrder dEmptyStock "nope" [] = .error (.OrderNotFound, dEmptyStock) ∧
    fulfilOrder dEmptyStock "o1" [(⟨"Z", "A", 5⟩ : FulfilBookItem)]
      = .error (.UnknownBookInOrder, dEmptyStock) ∧
    fulfilOrder dEmptyStock "o1" [(⟨"X", "A", 2⟩ : FulfilBookItem)]
      = .error (.QuantityMismatch, dEmptyStock) ∧
    fulfilOrder dEmptyStock "o1" [(⟨"X", "A", 1⟩ : FulfilBookItem)]
      = .error (.InsufficientStock, dEmptyStock) :=
  ⟨fulfil_error_priority.1 dEmptyStock "nope" [] rfl,
   fulfil_error_priority.2.1 dEmptyStock "o1" [("X", 1)]
     [(⟨"Z", "A", 5⟩ : FulfilBookItem)] rfl (by decide),
   fulfil_error_priority.2.2.1 dEmptyStock "o1" [("X", 1)]
     [(⟨"X", "A", 2⟩ : FulfilBookItem)] rfl (by decide) (by decide) (by decide)
     (by decide),
   fulfil_error_priority.2.2.2 dEmptyStock "o1" [("X", 1)]
     [(⟨"X", "A", 1⟩ : FulfilBookItem)] rfl (by decide) (by decide) (by decide)
     (by decide) (by decide)⟩

/-- C8: `placeOrder` returns the freshly generated identifier and stores
under it the tally of the submitted book sequence, mapping each book to its
number of occurrences (books with zero occurrences are absent from the
record); the empty sequence is accepted and stores an empty order; placing
`[X, X, Y]` produces the order `{X: 2, Y: 1}`. -/
theorem placeOrder_tally (d : WarehouseData) (newId : OrderId) (books : List BookID) :
    (placeOrder d newId books).1 = newId ∧
    ((placeOrder d newId books).2).orders newId = some (tallyOrder books []) ∧
    (∀ b, getR (tallyOrder books []) b
        = if countBook books b = 0 then none else some (countBook books b)) ∧
    ((placeOrder d newId []).2).orders newId = some [] ∧
    tallyOrder ["X", "X", "Y"] [] = [("X", 2), ("Y", 1)] := by
  refine ⟨rfl, ?_, ?_, ?_, by decide⟩
  · simp [placeOrder, WarehouseData.storeOrder]
  · intro b
    rw [getR_tallyOrder]
    by_cases h : countBook books b = 0
    · simp [h, getR]
    · simp [h, getR]
  · simp [placeOrder, WarehouseData.storeOrder, tallyOrder]

/-- C9: for non-negative quantities n and m (and a non-negative current
count, the store invariant), placing n then m copies of a book on a shelf
succeeds twice and leaves that shelf's count at its previous value plus
n plus m: placement is additive (read current, write current plus delta),
not an overwrite. -/
theorem placeBooksOnShelf_additive (d : WarehouseData) (book : BookID) (shelf : ShelfId)
    (n m : Int) (hn : 0 ≤ n) (hm : 0 ≤ m) (h0 : 0 ≤ d.stock book shelf) :
    ∃ d₁ d₂, placeBooksOnShelf d book n shelf = .ok d₁ ∧
      placeBooksOnShelf d₁ book m shelf = .ok d₂ ∧
      d₂.stock book shelf = d.stock book shelf + n + m := by
  have h0' : (0 : Int) ≤ d.stock book shelf + n := by omega
  refine ⟨_, _, placeBooksOnShelf_ok_eq (not_lt.mpr hn) h0',
    placeBooksOnShelf_ok_eq (not_lt.mpr hm) (by simp; omega), ?_⟩
  simp

/-- C9 witness: the additivity theorem at the empty store with quantities
2 and 3: the shelf ends at 0 + 2 + 3. -/
theorem placeBooksOnShelf_additive_witness :
    stockAfter (placeTwice dEmptyAll "X" 2 3 "A") "X" "A"
      = some (dEmptyAll.stock "X" "A" + 2 + 3) := by
  obtain ⟨d₁, d₂, h1, h2, h3⟩ :=
    placeBooksOnShelf_additive dEmptyAll "X" "A" 2 3 (by decide) (by decide) (by decide)
  rw [placeTwice, h1]
  dsimp only
  rw [h2, stockAfter]
  exact congrArg some h3

/-- C10: `placeBooksOnShelf` with a negative quantity fails with
`ValidationError` before any store access, carrying the input state
unchanged; with a non-negative quantity (and a non-negative current count,
the store invariant) the validation does not fire and the placement
succeeds, adding the quantity to the shelf's count. -/
theorem placeBooksOnShelf_validation (d : WarehouseData) (book : BookID)
    (shelf : ShelfId) (n : Int) :
    (n < 0 → placeBooksOnShelf d book n shelf = .error (.ValidationError, d)) ∧
    (0 ≤ n → 0 ≤ d.stock book shelf →
      ∃ d', placeBooksOnShelf d book n shelf = .ok d' ∧
        d'.stock book shelf = d.stock book shelf + n) := by
  refine ⟨fun hn => placeBooksOnShelf_neg hn, fun hn h0 => ?_⟩
  exact ⟨_, placeBooksOnShelf_ok_eq (not_lt.mpr hn) (by omega), by simp⟩

/-- C10 witness: the validation theorem at the empty store: placing −1
copies fails with `ValidationError` and an unchanged state, placing 5
copies succeeds and the shelf's count becomes 0 + 5. -/
theorem placeBooksOnShelf_validation_witness :
    placeBooksOnShelf dEmptyAll "X" (-1) "A" = .error (.ValidationError, dEmptyAll) ∧
    stockAfter (placeBooksOnShelf dEmptyAll "X" 5 "A") "X" "A"
      = some (dEmptyAll.stock "X" "A" + 5) := by
  refine ⟨(placeBooksOnShelf_validation dEmptyAll "X" "A" (-1)).1 (by decide), ?_⟩
  obtain ⟨d', hd', hs⟩ :=
    (placeBooksOnShelf_validation dEmptyAll "X" "A" 5).2 (by decide) (by decide)
  rw [hd', stockAfter]
  exact congrArg some hs
